import Mathlib

/-!
Verification of the cos-proxy S3-compatibility layer.

This file gives a shallow embedding of the request-handling core of the
cos-proxy repository (an S3-compatible reverse proxy in front of Tencent COS)
and proves properties about it:

* the Gin-based controller (`controller/s3_controller.go`): request dispatch,
  bucket/key address resolution, metadata-header rewriting, UploadPart
  parameter validation, ETag handling in multipart completion;
* the stand-alone proxy (`proxy.go` and related files): the upload-strategy
  threshold in `handlePutObject` and the multipart-upload coordinator in
  `executeMultipartPut` (stream splitting, result sorting, commit/abort
  decision).

Go strings are modelled as `List Char`; Go `int64` as `Int`; HTTP header maps
either as association lists (when iterated) or as functions from keys to value
lists (when looked up/updated).  Concurrency is abstracted in the standard
way: the worker pool delivers the multiset of per-part results in an arbitrary
order (a permutation), and `errgroup.Wait` is abstracted as an optional first
error, which is `some e` exactly when some producer read or part upload
failed with error `e`.
-/

namespace CosProxy

/-! ### Go `strings` helpers, on lists of characters -/

/-- Go `strings.ToLower` (ASCII range, which covers header names). -/
def toLowerL (l : List Char) : List Char := l.map Char.toLower

/-- Go `strings.TrimPrefix s pre`: removes `pre` once if it is a prefix. -/
def trimPrefixL (l pre : List Char) : List Char :=
  if pre.isPrefixOf l then l.drop pre.length else l

/-- Go `strings.TrimSuffix s suf`: removes `suf` once if it is a suffix. -/
def trimSuffixL (l suf : List Char) : List Char :=
  if suf.isSuffixOf l then l.take (l.length - suf.length) else l

/-- Go `strings.HasSuffix`. -/
def hasSuffixL (l suf : List Char) : Bool := suf.isSuffixOf l

/-- Go `strings.Trim(s, "\x22")`: drop all leading and trailing double
quotes. -/
def trimQuotesL (l : List Char) : List Char :=
  ((l.dropWhile (· == '"')).reverse.dropWhile (· == '"')).reverse

/-- Go `strings.SplitN(s, "/", 2)`: the segment before the first `'/'`, and
the remainder after it (`none` when there is no `'/'`, in which case Go
returns a one-element slice). -/
def splitOnceL : List Char → List Char × Option (List Char)
  | [] => ([], none)
  | c :: rest =>
    if c = '/' then ([], some rest)
    else
      let r := splitOnceL rest
      (c :: r.1, r.2)

/-! ### AddressResolver: `extractBucketAndKey` (controller/s3_controller.go) -/

/-- The path-style fallback of `extractBucketAndKey`: strip the leading
slash, split on the first remaining slash; first segment is the bucket, the
remainder (possibly empty) is the key. -/
def pathStyle (path : List Char) : List Char × List Char :=
  let trimmed := trimPrefixL path ['/']
  match splitOnceL trimmed with
  | (b, some k) => (b, k)
  | (b, none) => (b, [])

/-- `extractBucketAndKey` from `controller/s3_controller.go`: virtual-hosted
style when the base domain is configured, the host ends with the base domain,
and trimming `"." ++ baseDomain` leaves a nonempty proper prefix; otherwise
path style. -/
def extractBucketAndKey (baseDomain host path : List Char) :
    List Char × List Char :=
  if baseDomain ≠ [] ∧ hasSuffixL host baseDomain then
    if trimSuffixL host ('.' :: baseDomain) ≠ [] ∧
        trimSuffixL host ('.' :: baseDomain) ≠ host then
      (trimSuffixL host ('.' :: baseDomain), trimPrefixL path ['/'])
    else pathStyle path
  else pathStyle path

/-! ### RequestDispatcher: `s3RequestDispatcher` (controller/s3_controller.go) -/

/-- The operation chosen by the dispatcher. -/
inductive S3Op where
  | createMultipart : S3Op
  | uploadPart : S3Op
  | complete : S3Op
  | abort : S3Op
  | clientError : S3Op
  | getObject : S3Op
  | putObject : S3Op
  | postObject : S3Op
  | deleteObject : S3Op
  | methodNotAllowed : S3Op
deriving DecidableEq

/-- The classification performed by `s3RequestDispatcher`: the `uploads`
query marker wins, then the `uploadId` marker combined with the method, then
the method alone.  Go's `switch` on strings is an equality chain. -/
def s3RequestDispatcher (method : String) (hasUploads hasUploadId : Bool) :
    S3Op :=
  if hasUploads then S3Op.createMultipart
  else if hasUploadId then
    if method = "PUT" then S3Op.uploadPart
    else if method = "POST" then S3Op.complete
    else if method = "DELETE" then S3Op.abort
    else S3Op.clientError
  else
    if method = "GET" then S3Op.getObject
    else if method = "PUT" then S3Op.putObject
    else if method = "POST" then S3Op.postObject
    else if method = "DELETE" then S3Op.deleteObject
    else S3Op.methodNotAllowed

/-- A header map, as Go's `http.Header`: keys to lists of values. -/
def HeaderMap : Type := String → List String

/-- Go `http.Header.Del`, specialised to exact-key removal (the dispatcher
deletes the canonical key `"Authorization"`). -/
def headerDel (h : HeaderMap) (k : String) : HeaderMap :=
  fun k' => if k' = k then [] else h k'

/-- Lines 44–48 of the dispatcher: the Authorization header is deleted
before classification, so every downstream handler (and hence every request
forwarded to the backend) sees the stripped header map, and classification
depends only on method and query markers. -/
def dispatcherState (method : String) (hasUploads hasUploadId : Bool)
    (headers : HeaderMap) : S3Op × HeaderMap :=
  (s3RequestDispatcher method hasUploads hasUploadId,
    headerDel headers "Authorization")

/-! ### ProtocolTranslator: metadata-header rewriting -/

/-- The metadata-rewriting loop of `PutObject` and `CreateMultipartUpload`:
for each request header whose lowercased name starts with `x-amz-meta-`, set
`"x-cos-meta-" ++ (lowercased name minus that prefix)` to the header's first
value.  `"x-amz-meta-"` has 11 characters. -/
def metaRewrite (headers : List (List Char × List (List Char))) :
    List (List Char × List Char) :=
  headers.filterMap fun hv =>
    if ("x-amz-meta-".toList).isPrefixOf (toLowerL hv.1) then
      some ("x-cos-meta-".toList ++ (toLowerL hv.1).drop 11, hv.2.headD [])
    else none

/-! ### ProtocolTranslator: ETag handling -/

/-- `UploadPart` lines 384–390: the outward `ETag` response header is the
backend's `ETag` header value verbatim, omitted when empty. -/
def uploadPartOutwardETag (backendETag : List Char) : Option (List Char) :=
  if backendETag = [] then none else some backendETag

/-- `CompleteMultipartUpload` response payload: the `ETag` field is
`result.ETag` verbatim. -/
def completeOutwardETag (resultETag : List Char) : List Char := resultETag

/-- `CompleteMultipartUpload` request handling, line 422: each client
part ETag is passed through `strings.Trim(p.ETag, "\x22")` before being
forwarded to the backend. -/
def inboundETagToBackend (clientETag : List Char) : List Char :=
  trimQuotesL clientETag

/-! ### UploadPart parameter validation (controller/s3_controller.go) -/

/-- The numeric value of a nonempty all-digit character list, `none`
otherwise. -/
def decDigits? (l : List Char) : Option Nat :=
  if l = [] then none
  else if l.all Char.isDigit then
    some (l.foldl (fun acc c => acc * 10 + (c.toNat - 48)) 0)
  else none

/-- Go `strconv.Atoi` (= `ParseInt(s, 10, 0)` on a 64-bit platform): an
optional sign followed by at least one decimal digit, rejected when the value
falls outside `[-2^63, 2^63 - 1]`. -/
def atoi? (l : List Char) : Option Int :=
  let signAndDigits : Bool × List Char :=
    match l with
    | '+' :: rest => (false, rest)
    | '-' :: rest => (true, rest)
    | _ => (false, l)
  match decDigits? signAndDigits.2 with
  | none => none
  | some n =>
    if signAndDigits.1 then
      if n ≤ 2 ^ 63 then some (-(n : Int)) else none
    else
      if n ≤ 2 ^ 63 - 1 then some (n : Int) else none

/-- Outcome of the validation prelude of `UploadPart` (lines 324–345):
either an early client-error response with the given HTTP status, or a
forwarded backend call with the parsed part number and content length. -/
inductive UploadPartOutcome where
  | clientError : Nat → UploadPartOutcome
  | forward : Int → Int → UploadPartOutcome
deriving DecidableEq

/-- The validation prelude of `UploadPart`: missing key/partNumber/uploadId
is a 400, a partNumber that `Atoi` rejects is a 400, a negative (unknown)
content length is a 411, and otherwise the request is forwarded with the
parsed part number. -/
def uploadPartCheck (key partNumber uploadID : List Char)
    (contentLength : Int) : UploadPartOutcome :=
  if key = [] ∨ partNumber = [] ∨ uploadID = [] then
    UploadPartOutcome.clientError 400
  else
    match atoi? partNumber with
    | none => UploadPartOutcome.clientError 400
    | some n =>
      if contentLength < 0 then UploadPartOutcome.clientError 411
      else UploadPartOutcome.forward n contentLength

/-! ### Upload-strategy threshold: `handlePutObject` (proxy.go) -/

/-- The strategy chosen by `handlePutObject`. -/
inductive PutStrategy where
  | proxyMultipart : PutStrategy
  | simplePut : PutStrategy
  | multipartPut : PutStrategy
deriving DecidableEq

/-- `handlePutObject` (lines 176–197): multipart-management requests are
proxied through; otherwise a known content length strictly below 5 MiB takes
the simple path and everything else the multipart path.  An unknown length is
`-1`, as in Go's `http.Request.ContentLength`. -/
def handlePutObject (method : String) (hasUploads hasUploadId : Bool)
    (contentLength : Int) : PutStrategy :=
  if (method = "POST" ∧ (hasUploads ∨ hasUploadId)) ∨
      (method = "DELETE" ∧ hasUploadId) then
    PutStrategy.proxyMultipart
  else if contentLength ≠ -1 ∧ contentLength < 5 * 1024 * 1024 then
    PutStrategy.simplePut
  else
    PutStrategy.multipartPut

/-! ### MultipartUploadCoordinator: `executeMultipartPut` (proxy.go) -/

/-- The producer loop of `executeMultipartPut`: repeatedly `io.ReadFull` a
buffer of `P` bytes from a body of `L` remaining bytes, emitting
`(partNumber, n)` for every read with `n > 0`, stopping at end of stream.
The loop runs at most `L` times when `0 < P`, so `fuel` (instantiated with
`L`) makes the recursion structural; the `fuel = 0` base case is never
reached then. -/
def producePartsGo (P : Nat) : Nat → Nat → Nat → List (Nat × Nat)
  | 0, _, _ => []
  | fuel + 1, L, k =>
    if L = 0 then []
    else if L ≤ P then [(k, L)]
    else (k, P) :: producePartsGo P fuel (L - P) (k + 1)

/-- The parts (number, size) emitted by the producer for a body of length
`L` and part size `P`, numbering from 1. -/
def produceParts (P L : Nat) : List (Nat × Nat) := producePartsGo P L L 1

/-- One collected `(partNumber, ETag)` result (`uploadedPart` in proxy.go,
`cos.Object` in the completion manifest). -/
structure UploadedPart where
  partNumber : Nat
  eTag : String
deriving DecidableEq

/-- The backend calls made by the tail of `executeMultipartPut`. -/
inductive CosCall where
  | initiate : CosCall
  | uploadPartCall : Nat → CosCall
  | complete : String → List UploadedPart → CosCall
  | abort : String → CosCall
deriving DecidableEq

/-- The comparator of `sort.Slice(uploadedParts, ...)`: order by
`PartNumber`. -/
def partLE (a b : UploadedPart) : Prop := a.partNumber ≤ b.partNumber

instance : DecidableRel partLE := fun a b => Nat.decLe a.partNumber b.partNumber

instance : IsTotal UploadedPart partLE := ⟨fun a b => Nat.le_total _ _⟩

instance : IsTrans UploadedPart partLE := ⟨fun _ _ _ h1 h2 => Nat.le_trans h1 h2⟩

/-- `sort.Slice(uploadedParts, func(i, j) { PartNumber < PartNumber })`,
modelled by insertion sort; `sort.Slice` only guarantees a sorted result, and
on the inputs we consider part numbers are distinct, so the sorted result is
unique and the choice of algorithm is immaterial. -/
def sortParts (l : List UploadedPart) : List UploadedPart :=
  List.insertionSort partLE l

/-- Lines 321–350 of `executeMultipartPut`, after `g.Wait()` returns
`waitErr` and the result channel has been drained into `collected`: on error,
abort once (the abort's own outcome `abortErr` is only logged) and report the
original error; on success, sort the collected results by part number and
issue exactly one complete call with that manifest. -/
def multipartFinish (uploadID : String) (waitErr abortErr : Option String)
    (collected : List UploadedPart) :
    List CosCall × Except String (List UploadedPart) :=
  match waitErr with
  | some e =>
    ([CosCall.abort uploadID], Except.error ("Multipart upload failed: " ++ e))
  | none =>
    ([CosCall.complete uploadID (sortParts collected)],
      Except.ok (sortParts collected))

/-! ### Concrete inputs used by witnesses -/

/-- A concrete ETag assignment used to instantiate the multipart-commit
theorem. -/
def etagW : Nat → String :=
  fun i => if i = 1 then "e1" else if i = 2 then "e2" else "e3"

/-- A concrete header map carrying one Authorization value. -/
def authHeadersA : HeaderMap :=
  fun k =>
    if k = "Authorization" then ["AWS4-HMAC-SHA256 credential-one"]
    else if k = "Content-Type" then ["text/plain"]
    else []

/-- The same header map with a different Authorization value. -/
def authHeadersB : HeaderMap :=
  fun k =>
    if k = "Authorization" then ["AWS4-HMAC-SHA256 credential-two"]
    else if k = "Content-Type" then ["text/plain"]
    else []

/-! ## Helper lemmas about the producer loop -/

theorem producePartsGo_closed (P : Nat) (hP : 0 < P) (fuel : Nat) :
    ∀ L k, L ≤ fuel → 0 < L →
      producePartsGo P fuel L k
        = (List.range' k ((L - 1) / P)).map (fun i => (i, P))
            ++ [(k + (L - 1) / P, L - (L - 1) / P * P)] := by
  induction fuel with
  | zero => intro L k h1 h2; omega
  | succ fuel ih =>
    intro L k h1 h2
    have hL0 : ¬(L = 0) := by omega
    by_cases hLP : L ≤ P
    · have hd : (L - 1) / P = 0 := Nat.div_eq_of_lt (by omega)
      simp [producePartsGo, hL0, hLP, hd]
    · have hrec := ih (L - P) (k + 1) (by omega) (by omega)
      have hd : (L - 1) / P = (L - P - 1) / P + 1 := by
        have h1 : L - 1 = (L - P - 1) + P := by omega
        rw [h1, Nat.add_div_right _ hP]
      simp only [producePartsGo, if_neg hL0, if_neg hLP, hrec, hd]
      rw [List.range'_succ]
      simp only [List.map_cons, List.cons_append]
      have harith : L - ((L - P - 1) / P + 1) * P = L - P - (L - P - 1) / P * P := by
        rw [Nat.succ_mul, Nat.add_comm, ← Nat.sub_sub]
      have hidx : k + 1 + (L - P - 1) / P = k + ((L - P - 1) / P + 1) := by omega
      rw [harith, hidx]

theorem produceParts_zero (P : Nat) : produceParts P 0 = [] := rfl

theorem produceParts_closed (P L : Nat) (hP : 0 < P) (hL : 0 < L) :
    produceParts P L
      = (List.range' 1 ((L - 1) / P)).map (fun i => (i, P))
          ++ [(1 + (L - 1) / P, L - (L - 1) / P * P)] :=
  producePartsGo_closed P hP L L 1 (Nat.le_refl L) hL

theorem ceilDiv_eq (P L : Nat) (hP : 0 < P) (hL : 0 < L) :
    (L + P - 1) / P = (L - 1) / P + 1 := by
  have h1 : L + P - 1 = (L - 1) + P := by omega
  rw [h1, Nat.add_div_right _ hP]

theorem produceParts_map_fst (P L : Nat) (hP : 0 < P) :
    (produceParts P L).map Prod.fst = List.range' 1 ((L + P - 1) / P) := by
  rcases Nat.eq_zero_or_pos L with hL | hL
  · subst hL
    have hz : (P - 1) / P = 0 := Nat.div_eq_of_lt (by omega)
    simp [produceParts_zero, hz]
  · rw [produceParts_closed P L hP hL, ceilDiv_eq P L hP hL]
    simp only [List.map_append, List.map_map, List.map_cons, List.map_nil]
    have hcomp : (Prod.fst ∘ fun i => ((i, P) : Nat × Nat)) = id := rfl
    rw [hcomp, List.map_id, List.range'_concat]
    simp

theorem produceParts_length (P L : Nat) (hP : 0 < P) :
    (produceParts P L).length = (L + P - 1) / P := by
  have h := congrArg List.length (produceParts_map_fst P L hP)
  simpa using h

theorem produceParts_dropLast (P L : Nat) (hP : 0 < P) :
    ∀ pr ∈ (produceParts P L).dropLast, pr.2 = P := by
  rcases Nat.eq_zero_or_pos L with hL | hL
  · subst hL; simp [produceParts_zero]
  · rw [produceParts_closed P L hP hL, List.dropLast_concat]
    intro pr hpr
    obtain ⟨i, hi, rfl⟩ := List.mem_map.1 hpr
    rfl

theorem lastSize_eq (P L : Nat) (hP : 0 < P) (hL : 0 < L) :
    L - (L - 1) / P * P = if L % P = 0 then P else L % P := by
  have hq : P * (L / P) + L % P = L := Nat.div_add_mod L P
  have hr : L % P < P := Nat.mod_lt L hP
  by_cases h0 : L % P = 0
  · rw [if_pos h0]
    have hq1 : 0 < L / P := by
      rcases Nat.eq_zero_or_pos (L / P) with h | h
      · rw [h] at hq; omega
      · exact h
    obtain ⟨q', hq'⟩ : ∃ q', L / P = q' + 1 := ⟨L / P - 1, by omega⟩
    rw [hq', h0] at hq
    rw [Nat.mul_succ] at hq
    have hL1 : L - 1 = P * q' + (P - 1) := by omega
    have hdiv : (L - 1) / P = q' := by
      rw [hL1, Nat.mul_add_div hP, Nat.div_eq_of_lt (by omega), Nat.add_zero]
    rw [hdiv, Nat.mul_comm]
    omega
  · rw [if_neg h0]
    have hL1 : L - 1 = P * (L / P) + (L % P - 1) := by omega
    have hsmall : (L % P - 1) / P = 0 := Nat.div_eq_of_lt (by omega)
    have hdiv : (L - 1) / P = L / P := by
      rw [hL1, Nat.mul_add_div hP, hsmall, Nat.add_zero]
    rw [hdiv, Nat.mul_comm]
    omega

theorem produceParts_getLast (P L : Nat) (hP : 0 < P) (hL : 0 < L) :
    (produceParts P L).getLast?
      = some ((L + P - 1) / P, if L % P = 0 then P else L % P) := by
  rw [produceParts_closed P L hP hL, List.getLast?_concat]
  rw [lastSize_eq P L hP hL, ceilDiv_eq P L hP hL, Nat.add_comm]

/-! ## Helper lemma about the result sort -/

/-- Any permutation of a strictly part-number-sorted list sorts back to that
list: the manifest submitted by `executeMultipartPut` is independent of the
order in which part results were collected. -/
theorem sortParts_eq_of_perm (c l : List UploadedPart) (hperm : l.Perm c)
    (hsort : c.Pairwise (fun a b => a.partNumber < b.partNumber)) :
    sortParts l = c := by
  have hp : (sortParts l).Perm c := (List.perm_insertionSort partLE l).trans hperm
  have hs : List.Sorted partLE (sortParts l) := List.sorted_insertionSort partLE l
  have hne_c : c.Pairwise (fun a b => a.partNumber ≠ b.partNumber) :=
    hsort.imp (fun h => Nat.ne_of_lt h)
  have hne : (sortParts l).Pairwise (fun a b => a.partNumber ≠ b.partNumber) :=
    hp.symm.pairwise hne_c (fun h => h.symm)
  have hlt : (sortParts l).Pairwise (fun a b => a.partNumber < b.partNumber) :=
    (List.Pairwise.and hs hne).imp (fun h => Nat.lt_of_le_of_ne h.1 h.2)
  exact List.Perm.eq_of_sorted
    (fun a b _ _ hab hba => absurd hba (Nat.lt_asymm hab)) hlt hsort hp

/-! ## Helper lemma about quote trimming -/

/-- `strings.Trim(s, "\x22")` undoes quote wrapping whenever the wrapped
string itself neither starts nor ends with a quote. -/
theorem trimQuotes_roundtrip (e : List Char) (hhead : e.head? ≠ some '"')
    (hlast : e.getLast? ≠ some '"') :
    trimQuotesL ('"' :: e ++ ['"']) = e := by
  cases e with
  | nil => decide
  | cons c e' =>
    have hc : ¬((c == '"') = true) := by
      intro h
      exact hhead (by simpa using (beq_iff_eq.1 h))
    unfold trimQuotesL
    have h1 : List.dropWhile (· == '"') ('"' :: (c :: e') ++ ['"'])
        = (c :: e') ++ ['"'] := by
      rw [List.cons_append, List.dropWhile_cons, if_pos (by decide),
        List.cons_append, List.dropWhile_cons, if_neg hc]
    rw [h1, List.reverse_append]
    have h2 : (['"'] : List Char).reverse = ['"'] := rfl
    rw [h2]
    have h3 : List.dropWhile (· == '"') ('"' :: (c :: e').reverse)
        = List.dropWhile (· == '"') ((c :: e').reverse) := by
      rw [List.dropWhile_cons, if_pos (by decide)]
    rw [List.cons_append, List.nil_append] at *
    rw [h3]
    have h4 : List.dropWhile (· == '"') ((c :: e').reverse) = (c :: e').reverse := by
      cases hrev : (c :: e').reverse with
      | nil => simp at hrev
      | cons d t =>
        have hd : (c :: e').getLast? = some d := by
          rw [← List.head?_reverse, hrev]; rfl
        have hdq : ¬((d == '"') = true) := by
          intro h
          exact hlast (by rw [hd, beq_iff_eq.1 h])
        rw [List.dropWhile_cons, if_neg hdq]
    rw [h4, List.reverse_reverse]

/-! ## Claim theorems -/

/-- C1: when a part upload or a body read fails, `g.Wait()` reports that
original error `e`; the coordinator then issues no CompleteMultipartUpload
call, issues exactly one AbortMultipartUpload call for the session's
uploadID, and the error reported to the caller wraps the original failure
`e`, independently of whether the abort call itself failed (`abortErr`). -/
theorem multipart_failure_single_abort (uploadID e : String)
    (abortErr : Option String) (collected : List UploadedPart) :
    (multipartFinish uploadID (some e) abortErr collected).1
        = [CosCall.abort uploadID] ∧
    (∀ m, CosCall.complete uploadID m
        ∉ (multipartFinish uploadID (some e) abortErr collected).1) ∧
    (multipartFinish uploadID (some e) abortErr collected).1.count
        (CosCall.abort uploadID) = 1 ∧
    (multipartFinish uploadID (some e) abortErr collected).2
        = Except.error ("Multipart upload failed: " ++ e) := by
  refine ⟨rfl, ?_, ?_, rfl⟩
  · intro m hm
    simp [multipartFinish] at hm
  · simp [multipartFinish]

/-- C2: for a successful session over a stream of length `L` with part size
`P` — the producer finished cleanly (`waitErr = none`) and the collected
results are the emitted parts' `(partNumber, ETag)` pairs in an arbitrary
completion order — exactly one CompleteMultipartUpload call is issued, and
its manifest is exactly one entry per produced part, sorted strictly
ascending by partNumber with no gaps (part numbers `1, …, ceil(L/P)`) and no
duplicates. -/
theorem multipart_success_manifest (P L : Nat) (hP : 0 < P)
    (etag : Nat → String) (uploadID : String) (abortErr : Option String)
    (collected : List UploadedPart)
    (hcol : collected.Perm
      ((produceParts P L).map (fun pr => UploadedPart.mk pr.1 (etag pr.1)))) :
    (multipartFinish uploadID none abortErr collected).1
        = [CosCall.complete uploadID
            ((List.range' 1 ((L + P - 1) / P)).map
              (fun i => UploadedPart.mk i (etag i)))] ∧
    (((List.range' 1 ((L + P - 1) / P)).map
        (fun i => UploadedPart.mk i (etag i))).map UploadedPart.partNumber
      = (produceParts P L).map Prod.fst) ∧
    List.Pairwise (· < ·)
      (((List.range' 1 ((L + P - 1) / P)).map
        (fun i => UploadedPart.mk i (etag i))).map UploadedPart.partNumber) := by
  have hmapped : (produceParts P L).map (fun pr => UploadedPart.mk pr.1 (etag pr.1))
      = (List.range' 1 ((L + P - 1) / P)).map (fun i => UploadedPart.mk i (etag i)) := by
    rw [← produceParts_map_fst P L hP, List.map_map]
    rfl
  have hsort : ((List.range' 1 ((L + P - 1) / P)).map
      (fun i => UploadedPart.mk i (etag i))).Pairwise
        (fun a b => a.partNumber < b.partNumber) := by
    rw [List.pairwise_map]
    exact List.pairwise_lt_range' 1 ((L + P - 1) / P)
  have hsorted : sortParts collected
      = (List.range' 1 ((L + P - 1) / P)).map (fun i => UploadedPart.mk i (etag i)) :=
    sortParts_eq_of_perm _ _ (hcol.trans (hmapped ▸ List.Perm.refl _)) hsort
  refine ⟨?_, ?_, ?_⟩
  · simp [multipartFinish, hsorted]
  · rw [List.map_map, produceParts_map_fst P L hP]
    exact List.map_id _
  · rw [List.map_map]
    have : (UploadedPart.partNumber ∘ fun i => UploadedPart.mk i (etag i)) = id := rfl
    rw [this, List.map_id]
    exact List.pairwise_lt_range' 1 ((L + P - 1) / P)

/-- C2 witness: a 7-byte stream with part size 3 produces parts 1..3; with
results collected in the order 2, 3, 1 the single complete call still
carries the manifest sorted 1, 2, 3. -/
theorem multipart_success_manifest_witness :
    (multipartFinish "uid" none none
        [⟨2, "e2"⟩, ⟨3, "e3"⟩, ⟨1, "e1"⟩]).1
      = [CosCall.complete "uid" [⟨1, "e1"⟩, ⟨2, "e2"⟩, ⟨3, "e3"⟩]] := by
  have h := multipart_success_manifest 3 7 (by decide) etagW "uid" none
    [⟨2, "e2"⟩, ⟨3, "e3"⟩, ⟨1, "e1"⟩] (by decide)
  exact h.1.trans (by decide)

/-- C3: the producer loop splits a stream of length `L` into
`⌈L/P⌉ = (L+P-1)/P` parts numbered `1, 2, 3, …` in read order; every part
except the last has size `P`, and the last part has size `L mod P`, or `P`
when `L` is an exact multiple of `P`. -/
theorem producer_stream_splitting (P L : Nat) (hP : 0 < P) :
    (produceParts P L).length = (L + P - 1) / P ∧
    (produceParts P L).map Prod.fst = List.range' 1 ((L + P - 1) / P) ∧
    (∀ pr ∈ (produceParts P L).dropLast, pr.2 = P) ∧
    (0 < L →
      (produceParts P L).getLast?
        = some ((L + P - 1) / P, if L % P = 0 then P else L % P)) :=
  ⟨produceParts_length P L hP, produceParts_map_fst P L hP,
   produceParts_dropLast P L hP, fun hL => produceParts_getLast P L hP hL⟩

/-- C3 witness: a 7-byte stream with part size 3 gives 3 parts, numbered
1, 2, 3, of sizes 3, 3, 1. -/
theorem producer_stream_splitting_witness :
    (produceParts 3 7).length = 3 ∧
    (produceParts 3 7).map Prod.fst = List.range' 1 3 ∧
    (produceParts 3 7).getLast? = some (3, 1) := by
  have h := producer_stream_splitting 3 7 (by decide)
  exact ⟨h.1, h.2.1, h.2.2.2 (by decide)⟩

/-- C4 counterexample: the claim requires every outward ETag field to be the
backend's unquoted ETag wrapped in double quotes, but `UploadPart` copies the
backend header verbatim: for backend ETag `abc123` the outward header is
`abc123`, not `"abc123"`. -/
theorem etag_quoting_counterexample :
    uploadPartOutwardETag "abc123".toList = some "abc123".toList ∧
    (some "abc123".toList : Option (List Char)) ≠ some ("\"abc123\"".toList) := by
  decide

/-- C4 amended: outward ETag fields (UploadPart response header, completion
response field) are forwarded verbatim from the backend, the UploadPart
header being omitted when the backend value is empty; a client-supplied
quoted ETag in a completion body is stripped of its surrounding double
quotes before being forwarded to the backend, so a submitted `"e"` is
forwarded as `e`. -/
theorem etag_translation_amended (b e : List Char) (hb : b ≠ [])
    (hhead : e.head? ≠ some '"') (hlast : e.getLast? ≠ some '"') :
    uploadPartOutwardETag b = some b ∧
    completeOutwardETag b = b ∧
    inboundETagToBackend ('"' :: e ++ ['"']) = e := by
  refine ⟨?_, rfl, trimQuotes_roundtrip e hhead hlast⟩
  unfold uploadPartOutwardETag
  rw [if_neg hb]

/-- C4 amended, witness at the spec's own example `abc123`. -/
theorem etag_translation_amended_witness :
    uploadPartOutwardETag "abc123".toList = some "abc123".toList ∧
    inboundETagToBackend ('"' :: "abc123".toList ++ ['"']) = "abc123".toList := by
  have h := etag_translation_amended "abc123".toList "abc123".toList
    (by decide) (by decide) (by decide)
  exact ⟨h.1, h.2.2⟩

/-- C5: the dispatcher classifies with fixed precedence: the `uploads`
marker always yields CreateMultipartUpload; otherwise with an `uploadId`
marker PUT is UploadPart, POST Complete, DELETE Abort and anything else a
client error; otherwise dispatch is purely by method; and with an `uploadId`
marker the result is never a simple object write. -/
theorem dispatcher_classification (method : String)
    (hasUploads hasUploadId : Bool) :
    (hasUploads = true →
      s3RequestDispatcher method hasUploads hasUploadId
        = S3Op.createMultipart) ∧
    (hasUploads = false → hasUploadId = true →
      (method = "PUT" →
        s3RequestDispatcher method hasUploads hasUploadId = S3Op.uploadPart) ∧
      (method = "POST" →
        s3RequestDispatcher method hasUploads hasUploadId = S3Op.complete) ∧
      (method = "DELETE" →
        s3RequestDispatcher method hasUploads hasUploadId = S3Op.abort) ∧
      (method ≠ "PUT" → method ≠ "POST" → method ≠ "DELETE" →
        s3RequestDispatcher method hasUploads hasUploadId
          = S3Op.clientError)) ∧
    (hasUploads = false → hasUploadId = false →
      (method = "GET" →
        s3RequestDispatcher method hasUploads hasUploadId = S3Op.getObject) ∧
      (method = "PUT" →
        s3RequestDispatcher method hasUploads hasUploadId = S3Op.putObject) ∧
      (method = "POST" →
        s3RequestDispatcher method hasUploads hasUploadId = S3Op.postObject) ∧
      (method = "DELETE" →
        s3RequestDispatcher method hasUploads hasUploadId
          = S3Op.deleteObject) ∧
      (method ≠ "GET" → method ≠ "PUT" → method ≠ "POST" →
        method ≠ "DELETE" →
        s3RequestDispatcher method hasUploads hasUploadId
          = S3Op.methodNotAllowed)) ∧
    (hasUploadId = true →
      s3RequestDispatcher method hasUploads hasUploadId ≠ S3Op.putObject) := by
  refine ⟨?_, ?_, ?_, ?_⟩
  · intro h; subst h; simp [s3RequestDispatcher]
  · intro h1 h2; subst h1; subst h2
    refine ⟨?_, ?_, ?_, ?_⟩
    · intro h; subst h; simp [s3RequestDispatcher]
    · intro h; subst h; simp [s3RequestDispatcher]
    · intro h; subst h; simp [s3RequestDispatcher]
    · intro hne1 hne2 hne3; simp [s3RequestDispatcher, hne1, hne2, hne3]
  · intro h1 h2; subst h1; subst h2
    refine ⟨?_, ?_, ?_, ?_, ?_⟩
    · intro h; subst h; simp [s3RequestDispatcher]
    · intro h; subst h; simp [s3RequestDispatcher]
    · intro h; subst h; simp [s3RequestDispatcher]
    · intro h; subst h; simp [s3RequestDispatcher]
    · intro hne1 hne2 hne3 hne4
      simp [s3RequestDispatcher, hne1, hne2, hne3, hne4]
  · intro h; subst h
    cases hasUploads <;> simp only [s3RequestDispatcher] <;> split_ifs <;> simp

/-- C5 witness: a PUT carrying `uploadId` is UploadPart; the same PUT
without it is a simple object write. -/
theorem dispatcher_classification_witness :
    s3RequestDispatcher "PUT" false true = S3Op.uploadPart ∧
    s3RequestDispatcher "PUT" false false = S3Op.putObject := by
  refine ⟨((dispatcher_classification "PUT" false true).2.1 rfl rfl).1 rfl, ?_⟩
  exact ((dispatcher_classification "PUT" false false).2.2.1 rfl rfl).2.1 rfl

/-- C6 counterexample: for baseDomain `example.com`, the host
`.example.com` ends with `"." ++ baseDomain`, so the claim requires the
virtual-hosted result (bucket `""`, key `a/b.txt`); the code instead refuses
the empty bucket and falls back to path style, yielding bucket `a`, key
`b.txt`. -/
theorem extract_empty_bucket_counterexample :
    extractBucketAndKey "example.com".toList ".example.com".toList
        "/a/b.txt".toList = ("a".toList, "b.txt".toList) ∧
    extractBucketAndKey "example.com".toList ".example.com".toList
        "/a/b.txt".toList ≠ ("".toList, "a/b.txt".toList) := by
  decide

/-- C6 amended: if baseDomain is configured, host ends with
`"." ++ baseDomain`, and host is strictly longer than `"." ++ baseDomain`
(so the stripped bucket is nonempty), the bucket is host with that suffix
stripped and the key is path minus its leading slash; in every other case
(including the empty stripped bucket) the path-style split applies. -/
theorem extractBucketAndKey_amended (baseDomain host path : List Char) :
    ((baseDomain ≠ [] ∧ ('.' :: baseDomain).isSuffixOf host = true ∧
        host ≠ '.' :: baseDomain) →
      extractBucketAndKey baseDomain host path
        = (host.take (host.length - (baseDomain.length + 1)),
            trimPrefixL path ['/'])) ∧
    (¬(baseDomain ≠ [] ∧ ('.' :: baseDomain).isSuffixOf host = true ∧
        host ≠ '.' :: baseDomain) →
      extractBucketAndKey baseDomain host path = pathStyle path) := by
  constructor
  · rintro ⟨hbd, hsuf, hne⟩
    obtain ⟨t, ht⟩ := List.isSuffixOf_iff_suffix.1 hsuf
    have htne : t ≠ [] := by
      intro h; rw [h, List.nil_append] at ht; exact hne ht.symm
    have hlen : host.length = t.length + (baseDomain.length + 1) := by
      rw [← ht]; simp [List.length_append]
    have houter : hasSuffixL host baseDomain = true := by
      unfold hasSuffixL
      rw [List.isSuffixOf_iff_suffix]
      exact (List.suffix_cons '.' baseDomain).trans ⟨t, ht⟩
    have htrim : trimSuffixL host ('.' :: baseDomain) = t := by
      unfold trimSuffixL
      rw [if_pos hsuf]
      have hc : host.length - ('.' :: baseDomain).length = t.length := by
        simp only [List.length_cons]; omega
      rw [hc, ← ht]
      exact List.take_left t _
    have hth : t ≠ host := by
      intro h
      have := congrArg List.length h
      omega
    have hbucket : host.take (host.length - (baseDomain.length + 1)) = t := by
      have hc : host.length - (baseDomain.length + 1) = t.length := by omega
      rw [hc, ← ht]
      exact List.take_left t _
    unfold extractBucketAndKey
    rw [if_pos ⟨hbd, houter⟩, htrim, if_pos ⟨htne, hth⟩, hbucket]
  · intro hn
    unfold extractBucketAndKey
    by_cases h1 : baseDomain ≠ [] ∧ hasSuffixL host baseDomain
    · rw [if_pos h1]
      by_cases h2 : ('.' :: baseDomain).isSuffixOf host = true
      · have hhost : host = '.' :: baseDomain := by
          by_contra hcon
          exact hn ⟨h1.1, h2, hcon⟩
        have htrim : trimSuffixL host ('.' :: baseDomain) = [] := by
          unfold trimSuffixL
          rw [if_pos h2, hhost]
          simp
        rw [if_neg (by intro hc; exact hc.1 htrim)]
      · have htrim : trimSuffixL host ('.' :: baseDomain) = host := by
          unfold trimSuffixL
          rw [if_neg h2]
        rw [if_neg (by intro hc; exact hc.2 htrim)]
    · rw [if_neg h1]

/-- C6 amended, witness at the spec's two worked examples. -/
theorem extractBucketAndKey_amended_witness :
    extractBucketAndKey "example.com".toList "mybucket.example.com".toList
        "/a/b.txt".toList = ("mybucket".toList, "a/b.txt".toList) ∧
    extractBucketAndKey "example.com".toList "other.host".toList
        "/mybucket/a/b.txt".toList = ("mybucket".toList, "a/b.txt".toList) := by
  constructor
  · have h := (extractBucketAndKey_amended "example.com".toList
      "mybucket.example.com".toList "/a/b.txt".toList).1 (by decide)
    exact h.trans (by decide)
  · have h := (extractBucketAndKey_amended "example.com".toList
      "other.host".toList "/mybucket/a/b.txt".toList).2 (by decide)
    exact h.trans (by decide)

/-- C7 counterexample: the claim requires the metadata key suffix to be
preserved verbatim, but the code lowercases the whole header name before
stripping the prefix: header `X-Amz-Meta-Foo` is forwarded under
`x-cos-meta-foo`, not `x-cos-meta-Foo` (and only the first of its values is
kept). -/
theorem meta_suffix_lowercased_counterexample :
    metaRewrite [("X-Amz-Meta-Foo".toList, ["v1".toList, "v2".toList])]
      = [("x-cos-meta-foo".toList, "v1".toList)] ∧
    ("x-cos-meta-foo".toList : List Char) ≠ "x-cos-meta-Foo".toList := by
  decide

/-- C7 amended: a header matching the `x-amz-meta-` prefix
case-insensitively is forwarded under `x-cos-meta-` with the key suffix
lowercased (the whole name is lowercased, then the prefix stripped), its
first value only; and everything in the forwarded metadata arises from such
a header — non-matching headers are not forwarded as metadata. -/
theorem metaRewrite_amended (headers : List (List Char × List (List Char))) :
    (∀ h vs, (h, vs) ∈ headers →
      ("x-amz-meta-".toList).isPrefixOf (toLowerL h) = true →
      ("x-cos-meta-".toList ++ (toLowerL h).drop 11, vs.headD [])
        ∈ metaRewrite headers) ∧
    (∀ k v, (k, v) ∈ metaRewrite headers →
      ∃ h vs, (h, vs) ∈ headers ∧
        ("x-amz-meta-".toList).isPrefixOf (toLowerL h) = true ∧
        k = "x-cos-meta-".toList ++ (toLowerL h).drop 11 ∧
        v = vs.headD []) := by
  constructor
  · intro h vs hmem hpfx
    refine List.mem_filterMap.2 ⟨(h, vs), hmem, ?_⟩
    simp only [metaRewrite]
    rw [if_pos hpfx]
  · intro k v hmem
    obtain ⟨⟨h, vs⟩, hmem', heq⟩ := List.mem_filterMap.1 hmem
    by_cases hpfx : ("x-amz-meta-".toList).isPrefixOf (toLowerL h) = true
    · rw [if_pos hpfx] at heq
      injection heq with heq'
      rw [Prod.mk.injEq] at heq'
      exact ⟨h, vs, hmem', hpfx, heq'.1.symm, heq'.2.symm⟩
    · rw [if_neg hpfx] at heq
      exact absurd heq (by simp)

/-- C7 amended, witness: `X-Amz-Meta-Foo: v1, v2` is forwarded as
`x-cos-meta-foo: v1` while `Content-Type` is not forwarded as metadata. -/
theorem metaRewrite_amended_witness :
    ("x-cos-meta-foo".toList, "v1".toList)
      ∈ metaRewrite [("X-Amz-Meta-Foo".toList, ["v1".toList, "v2".toList]),
        ("Content-Type".toList, ["text/plain".toList])] := by
  have h := (metaRewrite_amended [("X-Amz-Meta-Foo".toList,
      ["v1".toList, "v2".toList]),
      ("Content-Type".toList, ["text/plain".toList])]).1
    "X-Amz-Meta-Foo".toList ["v1".toList, "v2".toList]
    (by decide) (by decide)
  exact h

/-- C8 counterexample: the claim requires a non-positive partNumber to be
rejected with a 4xx without reaching the backend, but `strconv.Atoi` accepts
`0`, so an UploadPart request with `partNumber=0` and content length 100 is
forwarded to the backend with part number 0. -/
theorem uploadPart_nonpositive_forwarded :
    uploadPartCheck "k".toList "0".toList "uid".toList 100
        = UploadPartOutcome.forward 0 100 ∧
    uploadPartCheck "k".toList "0".toList "uid".toList 100
        ≠ UploadPartOutcome.clientError 400 ∧
    uploadPartCheck "k".toList "0".toList "uid".toList 100
        ≠ UploadPartOutcome.clientError 411 := by
  decide

/-- C8 amended: missing key/partNumber/uploadId is a 400; a partNumber that
`Atoi` rejects (empty, non-numeric, out of int64 range) is a 400; a
missing/unknown (negative) content length is a 411; all without forwarding.
But any partNumber that parses as an integer — including zero and negative
values — is forwarded to the backend together with the content length. -/
theorem uploadPartCheck_amended (key partNumber uploadID : List Char)
    (contentLength : Int) :
    ((key = [] ∨ partNumber = [] ∨ uploadID = []) →
      uploadPartCheck key partNumber uploadID contentLength
        = UploadPartOutcome.clientError 400) ∧
    (key ≠ [] → uploadID ≠ [] → atoi? partNumber = none →
      uploadPartCheck key partNumber uploadID contentLength
        = UploadPartOutcome.clientError 400) ∧
    (∀ n, key ≠ [] → uploadID ≠ [] → atoi? partNumber = some n →
      contentLength < 0 →
      uploadPartCheck key partNumber uploadID contentLength
        = UploadPartOutcome.clientError 411) ∧
    (∀ n, key ≠ [] → uploadID ≠ [] → atoi? partNumber = some n →
      0 ≤ contentLength →
      uploadPartCheck key partNumber uploadID contentLength
        = UploadPartOutcome.forward n contentLength) := by
  have hpn_ne : ∀ n : Int, atoi? partNumber = some n → partNumber ≠ [] := by
    intro n hsome h
    rw [h] at hsome
    simp [atoi?, decDigits?] at hsome
  refine ⟨?_, ?_, ?_, ?_⟩
  · intro h
    unfold uploadPartCheck
    rw [if_pos h]
  · intro hk hu hnone
    unfold uploadPartCheck
    by_cases hpn : partNumber = []
    · rw [if_pos (Or.inr (Or.inl hpn))]
    · rw [if_neg (by simp [hk, hu, hpn]), hnone]
  · intro n hk hu hsome hneg
    unfold uploadPartCheck
    rw [if_neg (by simp [hk, hu, hpn_ne n hsome]), hsome]
    show (if contentLength < 0 then UploadPartOutcome.clientError 411
      else UploadPartOutcome.forward n contentLength)
        = UploadPartOutcome.clientError 411
    rw [if_pos hneg]
  · intro n hk hu hsome hpos
    unfold uploadPartCheck
    rw [if_neg (by simp [hk, hu, hpn_ne n hsome]), hsome]
    show (if contentLength < 0 then UploadPartOutcome.clientError 411
      else UploadPartOutcome.forward n contentLength)
        = UploadPartOutcome.forward n contentLength
    rw [if_neg (by omega)]

/-- C8 amended, witness: a non-numeric partNumber is a 400, a negative
content length a 411, and a well-formed request is forwarded. -/
theorem uploadPartCheck_amended_witness :
    uploadPartCheck "k".toList "abc".toList "uid".toList 10
        = UploadPartOutcome.clientError 400 ∧
    uploadPartCheck "k".toList "2".toList "uid".toList (-1)
        = UploadPartOutcome.clientError 411 ∧
    uploadPartCheck "k".toList "2".toList "uid".toList 42
        = UploadPartOutcome.forward 2 42 := by
  refine ⟨(uploadPartCheck_amended "k".toList "abc".toList "uid".toList 10).2.1
      (by decide) (by decide) (by decide),
    (uploadPartCheck_amended "k".toList "2".toList "uid".toList (-1)).2.2.1 2
      (by decide) (by decide) (by decide) (by decide),
    (uploadPartCheck_amended "k".toList "2".toList "uid".toList 42).2.2.2 2
      (by decide) (by decide) (by decide) (by decide)⟩

/-- C9: the dispatcher removes the client's Authorization header before any
classification, so two requests that differ only in their Authorization
value are classified identically and hand the very same header map to every
downstream handler (hence to every backend call). -/
theorem auth_header_discarded (method : String)
    (hasUploads hasUploadId : Bool) (h1 h2 : HeaderMap)
    (hdiff : ∀ k, k ≠ "Authorization" → h1 k = h2 k) :
    dispatcherState method hasUploads hasUploadId h1
      = dispatcherState method hasUploads hasUploadId h2 := by
  have hdel : headerDel h1 "Authorization" = headerDel h2 "Authorization" := by
    funext k
    unfold headerDel
    by_cases hk : k = "Authorization"
    · rw [if_pos hk, if_pos hk]
    · rw [if_neg hk, if_neg hk]
      exact hdiff k hk
  unfold dispatcherState
  rw [hdel]

/-- C9 witness: two concrete PUT requests whose header maps differ only in
the Authorization value are processed identically. -/
theorem auth_header_discarded_witness :
    (∀ k, k ≠ "Authorization" → authHeadersA k = authHeadersB k) ∧
    dispatcherState "PUT" false false authHeadersA
      = dispatcherState "PUT" false false authHeadersB := by
  have hdiff : ∀ k, k ≠ "Authorization" → authHeadersA k = authHeadersB k := by
    intro k hk
    unfold authHeadersA authHeadersB
    rw [if_neg hk, if_neg hk]
  exact ⟨hdiff,
    auth_header_discarded "PUT" false false authHeadersA authHeadersB hdiff⟩

/-- C10: for a PUT without multipart query markers, a known content length
(not `-1`) strictly below 5 MiB takes the simple `Put` path; a length of
5 MiB or more, or an unknown (streamed) length, takes the multipart path. -/
theorem put_threshold (contentLength : Int) :
    (contentLength ≠ -1 → contentLength < 5 * 1024 * 1024 →
      handlePutObject "PUT" false false contentLength
        = PutStrategy.simplePut) ∧
    (contentLength = -1 ∨ 5 * 1024 * 1024 ≤ contentLength →
      handlePutObject "PUT" false false contentLength
        = PutStrategy.multipartPut) := by
  constructor
  · intro hne hlt
    unfold handlePutObject
    rw [if_neg (by decide), if_pos ⟨hne, hlt⟩]
  · intro h
    unfold handlePutObject
    rw [if_neg (by decide),
      if_neg (by rcases h with h | h <;> rintro ⟨hne, hlt⟩ <;> omega)]

/-- C10 witness: a 100-byte PUT is a simple put; a PUT of unknown length is
multipart. -/
theorem put_threshold_witness :
    handlePutObject "PUT" false false 100 = PutStrategy.simplePut ∧
    handlePutObject "PUT" false false (-1) = PutStrategy.multipartPut :=
  ⟨(put_threshold 100).1 (by decide) (by decide),
   (put_threshold (-1)).2 (Or.inl rfl)⟩

end CosProxy
